import Mathlib

/-!
Verification of the frontier / priority-queue module of the repository
(src/bestfirst.py).  The Python classes are shallowly embedded: the mutable
heap becomes a list of entries, the dict `entry_finder` becomes an
association list with dict semantics (unique keys, O(1)-style lookup), and
every operation that can raise a Python exception returns `Except PyErr`.
-/

namespace BestFirst

/-- A search state.  `HospitalState` (from `domains.hospital.state`, outside
src/) is opaque to the queue: the code only needs value equality, hashing,
and the `path_cost` attribute read by `FrontierBestFirst.g`.  We model it as
an identifier together with its `path_cost`. -/
structure HState where
  id : Nat
  path_cost : Int
deriving DecidableEq

/-- The goal description is an opaque token handed to `prepare` and passed
through to `g`/`h`, which never inspect it. -/
structure GoalDescription where
  gid : Nat
deriving DecidableEq

/-- Python exceptions that the embedded code can raise. -/
inductive PyErr where
  | typeError
  | keyError
  | indexError
deriving DecidableEq

/-- One heap cell: the Python list `[priority, -count, element]`
(src/bestfirst.py line 47).  We store the plain counter value and encode
the negation in the comparison `keyLe`.  `element = none` models the
tombstone written by `change_priority` (line 56: `entry[2] = None`). -/
structure PQEntry where
  priority : Int
  count : Nat
  element : Option HState
deriving DecidableEq

/-- The heap order on entries: Python compares the lists
`[priority, -count, _]` lexicographically, so `a` comes no later than `b`
iff `(a.priority, -a.count) <= (b.priority, -b.count)`; the third component
is never reached because counters are unique (comment at lines 40-44). -/
def keyLe (a b : PQEntry) : Bool :=
  decide (a.priority < b.priority ∨ (a.priority = b.priority ∧ b.count ≤ a.count))

/-- Extraction of a heap minimum: `heapq.heappop` removes and returns the
smallest entry of the heap.  The binary-heap array layout is not
observable, so the heap is modelled as a bag of entries and `popMin`
returns a least entry together with the remaining entries. -/
def popMin : List PQEntry → Option (PQEntry × List PQEntry)
  | [] => none
  | e :: es =>
    match popMin es with
    | none => some (e, [])
    | some (m, rest) => if keyLe e m then some (e, es) else some (m, e :: rest)

/-- The loop body of `PriorityQueue.pop` (src/bestfirst.py lines 63-66)
with an explicit iteration bound: keep removing the heap minimum until an
entry whose element slot is not `None` appears.  Returns that entry, its
state, and the remaining heap; `none` models the `IndexError` that
`heapq.heappop` raises once the heap runs out.  Each iteration removes one
entry, so any bound of at least the heap's length makes the bounded loop
agree with the unbounded Python loop. -/
def popLiveFuel : Nat → List PQEntry → Option (PQEntry × HState × List PQEntry)
  | 0, _ => none
  | n + 1, heap =>
    match popMin heap with
    | none => none
    | some (e, rest) =>
      match e.element with
      | none => popLiveFuel n rest
      | some s => some (e, s, rest)

/-- The pop loop, run with its exact bound. -/
def popLive (heap : List PQEntry) : Option (PQEntry × HState × List PQEntry) :=
  popLiveFuel heap.length heap

/-- Lookup in the Python dict `entry_finder`.  The dict maps a state to
(an alias of) its most recent entry; since the code never mutates an
entry's priority or count after creation, we record the pair
`(priority, count)` for the aliased entry. -/
def finderGet : List (HState × Int × Nat) → HState → Option (Int × Nat)
  | [], _ => none
  | (y, v) :: rest, x => if y = x then some v else finderGet rest x

/-- Removal of a key from the dict (used by `dict.pop` and before
re-insertion, so that keys stay unique). -/
def finderErase : List (HState × Int × Nat) → HState → List (HState × Int × Nat)
  | [], _ => []
  | (y, v) :: rest, x =>
    if y = x then finderErase rest x else (y, v) :: finderErase rest x

/-- The queue of src/bestfirst.py lines 27-83: a heap of entries, the
`entry_finder` dict, and the `itertools.count()` counter (the next value it
will yield). -/
structure PriorityQueue where
  heap : List PQEntry
  entry_finder : List (HState × Int × Nat)
  counter : Nat
deriving DecidableEq

/-- `PriorityQueue.__init__` (lines 29-32). -/
def PriorityQueue.empty : PriorityQueue := ⟨[], [], 0⟩

/-- `PriorityQueue.add` (lines 34-49): draw the next counter value, push the
entry `[priority, -count, element]`, and register the (aliased) entry under
the element in `entry_finder`.  No membership check is performed; an
existing mapping for the same element is simply overwritten (dict
assignment), while the old heap entry is left untouched. -/
def PriorityQueue.add (q : PriorityQueue) (element : HState) (priority : Int) :
    PriorityQueue where
  heap := ⟨priority, q.counter, some element⟩ :: q.heap
  entry_finder := (element, priority, q.counter) :: finderErase q.entry_finder element
  counter := q.counter + 1

/-- `PriorityQueue.change_priority` (lines 51-58): `entry_finder.pop`
raises `KeyError` on an untracked element; otherwise the aliased heap entry
has its element slot overwritten with `None` (line 56) and the element is
re-added with the new priority. -/
def PriorityQueue.change_priority (q : PriorityQueue) (element : HState)
    (new_priority : Int) : Except PyErr PriorityQueue :=
  match finderGet q.entry_finder element with
  | none => .error .keyError
  | some (_, c) =>
    let invalidated : PriorityQueue :=
      { heap := q.heap.map fun e => if e.count = c then { e with element := none } else e
        entry_finder := finderErase q.entry_finder element
        counter := q.counter }
    .ok (invalidated.add element new_priority)

/-- `PriorityQueue.pop` (lines 60-69), exposing the popped heap entry as
well (the Python local `entry`): loop until a live entry appears
(`IndexError` from `heappop` if the heap runs out first), then remove the
state from `entry_finder` (`dict.pop`, which raises `KeyError` if the state
is no longer tracked) and return it. -/
def PriorityQueue.popEntry (q : PriorityQueue) :
    Except PyErr (PQEntry × HState × PriorityQueue) :=
  match popLive q.heap with
  | none => .error .indexError
  | some (e, s, rest) =>
    match finderGet q.entry_finder s with
    | none => .error .keyError
    | some _ => .ok (e, s, ⟨rest, finderErase q.entry_finder s, q.counter⟩)

/-- `PriorityQueue.pop` as the Python caller sees it: just the state. -/
def PriorityQueue.pop (q : PriorityQueue) : Except PyErr (HState × PriorityQueue) :=
  match q.popEntry with
  | .error err => .error err
  | .ok (_, s, q') => .ok (s, q')

/-- `PriorityQueue.clear` (lines 71-74): empty the heap and the dict and
restart the counter from zero. -/
def PriorityQueue.clear (_ : PriorityQueue) : PriorityQueue := ⟨[], [], 0⟩

/-- `PriorityQueue.size` (lines 76-77): `len(self.entry_finder)`. -/
def PriorityQueue.size (q : PriorityQueue) : Nat := q.entry_finder.length

/-- `PriorityQueue.get_priority` (lines 79-83): `entry[0]` of the tracked
entry, or the `None` sentinel. -/
def PriorityQueue.get_priority (q : PriorityQueue) (element : HState) : Option Int :=
  (finderGet q.entry_finder element).map (fun v => v.1)

/-- The generic frontier, src/bestfirst.py lines 86-124. -/
structure FrontierBestFirst where
  goal_description : Option GoalDescription
  priority_queue : PriorityQueue
deriving DecidableEq

/-- `FrontierBestFirst.__init__` (lines 88-90). -/
def FrontierBestFirst.init : FrontierBestFirst := ⟨none, PriorityQueue.empty⟩

/-- `FrontierBestFirst.prepare` (lines 92-96). -/
def FrontierBestFirst.prepare (fr : FrontierBestFirst) (gd : GoalDescription) :
    FrontierBestFirst :=
  ⟨some gd, fr.priority_queue.clear⟩

/-- `FrontierBestFirst.g` (lines 98-99): returns `state.path_cost`.  The
`self` and `goal_description` parameters are unused by the body. -/
def FrontierBestFirst.g (state : HState) (_ : Option GoalDescription) : Int :=
  state.path_cost

/-- `FrontierBestFirst.h` (lines 101-102): returns `0`. -/
def FrontierBestFirst.h (_ : HState) (_ : Option GoalDescription) : Int := 0

/-- `FrontierBestFirst.f` (lines 104-105).  Note the source calls
`FrontierBestFirst.h` and `FrontierBestFirst.g` through the class, not
through `self`, so subclass overrides of `g`/`h` are never consulted here. -/
def FrontierBestFirst.f (state : HState) (gd : Option GoalDescription) : Int :=
  FrontierBestFirst.h state gd + FrontierBestFirst.g state gd

/-- `FrontierBestFirst.contains` (lines 123-124). -/
def FrontierBestFirst.contains (fr : FrontierBestFirst) (state : HState) : Bool :=
  (fr.priority_queue.get_priority state).isSome

/-- `FrontierBestFirst.add` (lines 107-112).  When the state is not yet
contained, it is pushed at priority `f(state)`.  When it is contained, the
`elif` condition evaluates `self.priority_queue.get_priority(self, state)`:
`get_priority` is a bound method taking one argument, so CPython raises
`TypeError` before any priority comparison (line 111's
`change_priority(self, state, ...)` has the same extra-`self` slip). -/
def FrontierBestFirst.add (fr : FrontierBestFirst) (state : HState) :
    Except PyErr FrontierBestFirst :=
  if FrontierBestFirst.contains fr state = false then
    .ok { fr with
          priority_queue :=
            fr.priority_queue.add state (FrontierBestFirst.f state fr.goal_description) }
  else
    .error .typeError

/-- `FrontierBestFirst.pop` (lines 114-115). -/
def FrontierBestFirst.pop (fr : FrontierBestFirst) :
    Except PyErr (HState × FrontierBestFirst) :=
  match fr.priority_queue.pop with
  | .error err => .error err
  | .ok (s, q') => .ok (s, { fr with priority_queue := q' })

/-- `FrontierBestFirst.is_empty` (lines 117-118). -/
def FrontierBestFirst.is_empty (fr : FrontierBestFirst) : Bool :=
  fr.priority_queue.size == 0

/-- `FrontierBestFirst.size` (lines 120-121). -/
def FrontierBestFirst.size (fr : FrontierBestFirst) : Nat :=
  fr.priority_queue.size

/-- Modelled from the spec: `domains.hospital.heuristics` is not under
src/.  The spec says a heuristic is "a callable taking a state (and
implicitly the goal context) and returning a non-negative integer
estimate"; the zero heuristic is modelled as the constantly-zero estimate.
No theorem below depends on the particular value, only on the fact,
visible in src/bestfirst.py lines 140-141, that it is applied to the state
alone and cannot read a frontier's stored heuristic. -/
def HospitalZeroHeuristic (_ : HState) : Int := 0

/-- Modelled from the spec: `domains.hospital.heuristics` is not under
src/.  The advanced heuristic is modelled as some fixed estimate of the
state; no theorem below depends on the particular value, only on the fact,
visible in src/bestfirst.py lines 153-154, that it is applied to the state
alone and cannot read a frontier's stored heuristic. -/
def HospitalAdvancedHeuristics (_ : HState) : Int := 0

/-- `FrontierAStar` (lines 131-141): inherits every queue operation from
`FrontierBestFirst` and stores the constructor's `heuristic` argument. -/
structure FrontierAStar where
  goal_description : Option GoalDescription
  priority_queue : PriorityQueue
  heuristic : HState → Int

/-- `FrontierAStar.__init__` (lines 133-135). -/
def FrontierAStar.init (heuristic : HState → Int) : FrontierAStar :=
  ⟨none, PriorityQueue.empty, heuristic⟩

/-- `FrontierAStar.h` (lines 140-141): returns
`h_heuristics.HospitalZeroHeuristic(state)` — the stored `self.heuristic`
is not consulted. -/
def FrontierAStar.h (_ : FrontierAStar) (state : HState)
    (_ : Option GoalDescription) : Int :=
  HospitalZeroHeuristic state

/-- `FrontierGreedy` (lines 144-154). -/
structure FrontierGreedy where
  goal_description : Option GoalDescription
  priority_queue : PriorityQueue
  heuristic : HState → Int

/-- `FrontierGreedy.__init__` (lines 146-148). -/
def FrontierGreedy.init (heuristic : HState → Int) : FrontierGreedy :=
  ⟨none, PriorityQueue.empty, heuristic⟩

/-- `FrontierGreedy.g` (lines 150-151): returns `0`. -/
def FrontierGreedy.g (_ : FrontierGreedy) (_ : HState)
    (_ : Option GoalDescription) : Int := 0

/-- `FrontierGreedy.h` (lines 153-154): returns
`h_heuristics.HospitalAdvancedHeuristics(state)` — the stored
`self.heuristic` is not consulted. -/
def FrontierGreedy.h (_ : FrontierGreedy) (state : HState)
    (_ : Option GoalDescription) : Int :=
  HospitalAdvancedHeuristics state

/-- One mutating call on a `PriorityQueue`. -/
inductive QOp where
  | add (x : HState) (p : Int)
  | change_priority (x : HState) (p : Int)
  | pop
  | clear
deriving DecidableEq

/-- Effect of one call; an uncaught exception aborts the sequence. -/
def QOp.step (q : PriorityQueue) : QOp → Except PyErr PriorityQueue
  | .add x p => .ok (q.add x p)
  | .change_priority x p => q.change_priority x p
  | .pop =>
    match q.pop with
    | .error err => .error err
    | .ok (_, q') => .ok q'
  | .clear => .ok q.clear

/-- A sequence of calls, each of which must return normally. -/
def runQOps (q : PriorityQueue) : List QOp → Except PyErr PriorityQueue
  | [] => .ok q
  | op :: ops =>
    match QOp.step q op with
    | .error err => .error err
    | .ok q' => runQOps q' ops

/-- Does the call name this payload (as an `add`/`change_priority` target)? -/
def QOp.touches (x : HState) : QOp → Bool
  | .add y _ => decide (y = x)
  | .change_priority y _ => decide (y = x)
  | .pop => false
  | .clear => false

/-- Is the call an `add` or a `change_priority`? -/
def QOp.isAddOrChange : QOp → Bool
  | .add _ _ => true
  | .change_priority _ _ => true
  | .pop => false
  | .clear => false

/-- Spec-side ledger of "distinct payloads added and not yet popped",
maintained next to the source operations from their observable results: an
`add` of `x` records `x` (once), a pop returning `s` discharges `s`, a
`clear` empties the ledger, and a `change_priority` (an in-place priority
update in the spec's view) leaves it unchanged. -/
def stepTracked (q : PriorityQueue) (t : List HState) (op : QOp) :
    Except PyErr (PriorityQueue × List HState) :=
  match op with
  | .add x p => .ok (q.add x p, if x ∈ t then t else x :: t)
  | .change_priority x p =>
    match q.change_priority x p with
    | .error err => .error err
    | .ok q' => .ok (q', t)
  | .pop =>
    match q.pop with
    | .error err => .error err
    | .ok (s, q') => .ok (q', t.filter (fun z => decide (z ≠ s)))
  | .clear => .ok (q.clear, [])

/-- The ledger-carrying run of a call sequence. -/
def runQOpsTracked (q : PriorityQueue) (t : List HState) :
    List QOp → Except PyErr (PriorityQueue × List HState)
  | [] => .ok (q, t)
  | op :: ops =>
    match stepTracked q t op with
    | .error err => .error err
    | .ok (q', t') => runQOpsTracked q' t' ops

/-- Priorities of the entries delivered by repeatedly calling `pop`,
stopping at the first raised exception (or after `n` calls). -/
def popPriorities (q : PriorityQueue) : Nat → List Int
  | 0 => []
  | n + 1 =>
    match q.popEntry with
    | .error _ => []
    | .ok (e, _, q') => e.priority :: popPriorities q' n

/-- One call on a frontier object (the operations named by the claim). -/
inductive FOp where
  | prepare (gd : GoalDescription)
  | add (s : HState)
  | pop
  | contains (s : HState)
  | size
deriving DecidableEq

/-- Observable result of one frontier call. -/
inductive FOut where
  | unit
  | state (s : HState)
  | bool (b : Bool)
  | nat (n : Nat)
  | raised (err : PyErr)
deriving DecidableEq

/-- One frontier call on the attributes the inherited `FrontierBestFirst`
methods touch (`goal_description` and `priority_queue`; neither
`FrontierAStar` nor `FrontierGreedy` overrides any of these methods, and
the base methods call `FrontierBestFirst.f`/`g`/`h` through the class, so
this is the code every instance runs).  The final flag records whether the
call raised. -/
def frontierStepCore (gd : Option GoalDescription) (pq : PriorityQueue) :
    FOp → FOut × Option GoalDescription × PriorityQueue × Bool
  | .prepare g => (.unit, some g, pq.clear, false)
  | .add s =>
    if (pq.get_priority s).isSome then (.raised .typeError, gd, pq, true)
    else (.unit, gd, pq.add s (FrontierBestFirst.f s gd), false)
  | .pop =>
    match pq.pop with
    | .error err => (.raised err, gd, pq, true)
    | .ok (s, pq') => (.state s, gd, pq', false)
  | .contains s => (.bool (pq.get_priority s).isSome, gd, pq, false)
  | .size => (.nat pq.size, gd, pq, false)

/-- Run of a frontier call sequence over the shared attributes; a raised
exception ends the run (its marker is the last output). -/
def frontierRunCore (gd : Option GoalDescription) (pq : PriorityQueue) :
    List FOp → List FOut × Option GoalDescription × PriorityQueue
  | [] => ([], gd, pq)
  | op :: ops =>
    match frontierStepCore gd pq op with
    | (out, gd', pq', true) => ([out], gd', pq')
    | (out, gd', pq', false) =>
      let rest := frontierRunCore gd' pq' ops
      (out :: rest.1, rest.2)

/-- Running a call sequence on a `FrontierAStar` instance: the inherited
methods read and write only `goal_description` and `priority_queue`; the
stored heuristic rides along untouched. -/
def FrontierAStar.run (fr : FrontierAStar) (ops : List FOp) :
    List FOut × FrontierAStar :=
  let r := frontierRunCore fr.goal_description fr.priority_queue ops
  (r.1, ⟨r.2.1, r.2.2, fr.heuristic⟩)

/-- Running a call sequence on a `FrontierGreedy` instance. -/
def FrontierGreedy.run (fr : FrontierGreedy) (ops : List FOp) :
    List FOut × FrontierGreedy :=
  let r := frontierRunCore fr.goal_description fr.priority_queue ops
  (r.1, ⟨r.2.1, r.2.2, fr.heuristic⟩)

/-- Relation between a queue and the spec's ledger: the ledger has no
duplicates, the dict keys have no duplicates, and a payload is
index-tracked exactly when the ledger holds it. -/
def TrackedInv (q : PriorityQueue) (t : List HState) : Prop :=
  t.Nodup ∧ (q.entry_finder.map (fun p => p.1)).Nodup ∧
  ∀ x : HState, (finderGet q.entry_finder x).isSome = true ↔ x ∈ t

theorem keyLe_refl (a : PQEntry) : keyLe a a = true := by
  simp [keyLe]

theorem keyLe_total (a b : PQEntry) : keyLe a b = true ∨ keyLe b a = true := by
  simp only [keyLe, decide_eq_true_eq]
  omega

theorem keyLe_trans {a b c : PQEntry} (h1 : keyLe a b = true) (h2 : keyLe b c = true) :
    keyLe a c = true := by
  simp only [keyLe, decide_eq_true_eq] at h1 h2 ⊢
  omega

theorem keyLe_priority_le {a b : PQEntry} (h : keyLe a b = true) :
    a.priority ≤ b.priority := by
  simp only [keyLe, decide_eq_true_eq] at h
  omega

theorem popMin_nil : popMin [] = none := rfl

theorem popMin_eq_none {l : List PQEntry} (h : popMin l = none) : l = [] := by
  cases l with
  | nil => rfl
  | cons e es =>
    simp only [popMin] at h
    cases h' : popMin es with
    | none => rw [h'] at h; exact absurd h (by simp)
    | some p =>
      rw [h'] at h
      by_cases hk : keyLe e p.1 = true <;> simp [hk] at h

theorem popMin_length {l rest : List PQEntry} {m : PQEntry}
    (h : popMin l = some (m, rest)) : rest.length + 1 = l.length := by
  induction l generalizing m rest with
  | nil => simp [popMin] at h
  | cons e es ih =>
    rw [popMin] at h
    cases h' : popMin es with
    | none =>
      rw [h'] at h
      simp only [Option.some.injEq, Prod.mk.injEq] at h
      obtain ⟨rfl, rfl⟩ := h
      have := popMin_eq_none h'
      subst this
      rfl
    | some p =>
      obtain ⟨m', rest'⟩ := p
      rw [h'] at h
      dsimp only at h
      by_cases hk : keyLe e m' = true
      · rw [if_pos hk] at h
        simp only [Option.some.injEq, Prod.mk.injEq] at h
        obtain ⟨rfl, rfl⟩ := h
        rfl
      · rw [if_neg hk] at h
        simp only [Option.some.injEq, Prod.mk.injEq] at h
        obtain ⟨rfl, rfl⟩ := h
        have := ih h'
        simp only [List.length_cons]
        omega

theorem popMin_mem {l rest : List PQEntry} {m : PQEntry}
    (h : popMin l = some (m, rest)) : m ∈ l := by
  induction l generalizing m rest with
  | nil => simp [popMin] at h
  | cons e es ih =>
    rw [popMin] at h
    cases h' : popMin es with
    | none =>
      rw [h'] at h
      simp only [Option.some.injEq, Prod.mk.injEq] at h
      obtain ⟨rfl, rfl⟩ := h
      exact List.mem_cons_self _ _
    | some p =>
      obtain ⟨m', rest'⟩ := p
      rw [h'] at h
      dsimp only at h
      by_cases hk : keyLe e m' = true
      · rw [if_pos hk] at h
        simp only [Option.some.injEq, Prod.mk.injEq] at h
        obtain ⟨rfl, rfl⟩ := h
        exact List.mem_cons_self _ _
      · rw [if_neg hk] at h
        simp only [Option.some.injEq, Prod.mk.injEq] at h
        obtain ⟨rfl, rfl⟩ := h
        exact List.mem_cons_of_mem _ (ih h')

theorem popMin_rest_mem {l rest : List PQEntry} {m : PQEntry}
    (h : popMin l = some (m, rest)) : ∀ x ∈ rest, x ∈ l := by
  induction l generalizing m rest with
  | nil => simp [popMin] at h
  | cons e es ih =>
    rw [popMin] at h
    cases h' : popMin es with
    | none =>
      rw [h'] at h
      simp only [Option.some.injEq, Prod.mk.injEq] at h
      obtain ⟨rfl, rfl⟩ := h
      intro x hx
      simp at hx
    | some p =>
      obtain ⟨m', rest'⟩ := p
      rw [h'] at h
      dsimp only at h
      by_cases hk : keyLe e m' = true
      · rw [if_pos hk] at h
        simp only [Option.some.injEq, Prod.mk.injEq] at h
        obtain ⟨rfl, rfl⟩ := h
        intro x hx
        exact List.mem_cons_of_mem _ hx
      · rw [if_neg hk] at h
        simp only [Option.some.injEq, Prod.mk.injEq] at h
        obtain ⟨rfl, rfl⟩ := h
        intro x hx
        rcases List.mem_cons.mp hx with rfl | hx'
        · exact List.mem_cons_self _ _
        · exact List.mem_cons_of_mem _ (ih h' x hx')

theorem popMin_cover {l rest : List PQEntry} {m : PQEntry}
    (h : popMin l = some (m, rest)) : ∀ x ∈ l, x = m ∨ x ∈ rest := by
  induction l generalizing m rest with
  | nil => simp [popMin] at h
  | cons e es ih =>
    rw [popMin] at h
    cases h' : popMin es with
    | none =>
      rw [h'] at h
      simp only [Option.some.injEq, Prod.mk.injEq] at h
      obtain ⟨rfl, rfl⟩ := h
      have hes := popMin_eq_none h'
      subst hes
      intro x hx
      rcases List.mem_cons.mp hx with rfl | hx'
      · exact Or.inl rfl
      · simp at hx'
    | some p =>
      obtain ⟨m', rest'⟩ := p
      rw [h'] at h
      dsimp only at h
      by_cases hk : keyLe e m' = true
      · rw [if_pos hk] at h
        simp only [Option.some.injEq, Prod.mk.injEq] at h
        obtain ⟨rfl, rfl⟩ := h
        intro x hx
        rcases List.mem_cons.mp hx with rfl | hx'
        · exact Or.inl rfl
        · exact Or.inr hx'
      · rw [if_neg hk] at h
        simp only [Option.some.injEq, Prod.mk.injEq] at h
        obtain ⟨rfl, rfl⟩ := h
        intro x hx
        rcases List.mem_cons.mp hx with rfl | hx'
        · exact Or.inr (List.mem_cons_self _ _)
        · rcases ih h' x hx' with hxm | hxr
          · exact Or.inl hxm
          · exact Or.inr (List.mem_cons_of_mem _ hxr)

theorem popMin_min {l rest : List PQEntry} {m : PQEntry}
    (h : popMin l = some (m, rest)) : ∀ x ∈ l, keyLe m x = true := by
  induction l generalizing m rest with
  | nil => simp [popMin] at h
  | cons e es ih =>
    rw [popMin] at h
    cases h' : popMin es with
    | none =>
      rw [h'] at h
      simp only [Option.some.injEq, Prod.mk.injEq] at h
      obtain ⟨rfl, rfl⟩ := h
      have hes := popMin_eq_none h'
      subst hes
      intro x hx
      rcases List.mem_cons.mp hx with rfl | hx'
      · exact keyLe_refl x
      · simp at hx'
    | some p =>
      obtain ⟨m', rest'⟩ := p
      rw [h'] at h
      dsimp only at h
      by_cases hk : keyLe e m' = true
      · rw [if_pos hk] at h
        simp only [Option.some.injEq, Prod.mk.injEq] at h
        obtain ⟨rfl, rfl⟩ := h
        intro x hx
        rcases List.mem_cons.mp hx with rfl | hx'
        · exact keyLe_refl x
        · exact keyLe_trans hk (ih h' x hx')
      · rw [if_neg hk] at h
        simp only [Option.some.injEq, Prod.mk.injEq] at h
        obtain ⟨rfl, rfl⟩ := h
        intro x hx
        rcases List.mem_cons.mp hx with rfl | hx'
        · rcases keyLe_total m' x with hle | hle
          · exact hle
          · exact absurd hle hk
        · exact ih h' x hx'

theorem popLiveFuel_spec (n : Nat) :
    ∀ (heap : List PQEntry) (e : PQEntry) (s : HState) (rest : List PQEntry),
      popLiveFuel n heap = some (e, s, rest) →
      e.element = some s ∧ e ∈ heap ∧
      (∀ x ∈ rest, x ∈ heap) ∧
      (∀ x ∈ heap, x.element ≠ none → keyLe e x = true) ∧
      (∀ x ∈ heap, x.element ≠ none → x = e ∨ x ∈ rest) := by
  induction n with
  | zero =>
    intro heap e s rest h
    simp [popLiveFuel] at h
  | succ n ih =>
    intro heap e s rest h
    rw [popLiveFuel] at h
    cases hmin : popMin heap with
    | none =>
      rw [hmin] at h
      simp at h
    | some p =>
      obtain ⟨m, hrest⟩ := p
      rw [hmin] at h
      dsimp only at h
      cases hel : m.element with
      | none =>
        rw [hel] at h
        dsimp only at h
        obtain ⟨h1, h2, h3, h4, h5⟩ := ih hrest e s rest h
        refine ⟨h1, popMin_rest_mem hmin e h2, ?_, ?_, ?_⟩
        · intro x hx
          exact popMin_rest_mem hmin x (h3 x hx)
        · intro x hx hxl
          rcases popMin_cover hmin x hx with rfl | hx'
          · exact absurd hel hxl
          · exact h4 x hx' hxl
        · intro x hx hxl
          rcases popMin_cover hmin x hx with rfl | hx'
          · exact absurd hel hxl
          · exact h5 x hx' hxl
      | some s' =>
        rw [hel] at h
        dsimp only at h
        simp only [Option.some.injEq, Prod.mk.injEq] at h
        obtain ⟨rfl, rfl, rfl⟩ := h
        refine ⟨hel, popMin_mem hmin, popMin_rest_mem hmin, ?_, ?_⟩
        · intro x hx _
          exact popMin_min hmin x hx
        · intro x hx _
          rcases popMin_cover hmin x hx with rfl | hx'
          · exact Or.inl rfl
          · exact Or.inr hx'

theorem popLive_spec {heap rest : List PQEntry} {e : PQEntry} {s : HState}
    (h : popLive heap = some (e, s, rest)) :
    e.element = some s ∧ e ∈ heap ∧
    (∀ x ∈ rest, x ∈ heap) ∧
    (∀ x ∈ heap, x.element ≠ none → keyLe e x = true) ∧
    (∀ x ∈ heap, x.element ≠ none → x = e ∨ x ∈ rest) :=
  popLiveFuel_spec heap.length heap e s rest h

theorem popLiveFuel_none (n : Nat) :
    ∀ heap : List PQEntry,
      (∀ x ∈ heap, x.element = none) → popLiveFuel n heap = none := by
  induction n with
  | zero =>
    intro heap _
    rfl
  | succ n ih =>
    intro heap hdead
    rw [popLiveFuel]
    cases hmin : popMin heap with
    | none => rfl
    | some p =>
      obtain ⟨m, hrest⟩ := p
      dsimp only
      cases hel : m.element with
      | none =>
        dsimp only
        refine ih hrest ?_
        intro x hx
        exact hdead x (popMin_rest_mem hmin x hx)
      | some s' =>
        exact absurd (hdead m (popMin_mem hmin)) (by simp [hel])

/-- All heap entries are tombstones (or the heap is empty): the pop loop
exhausts the heap and `heapq.heappop` raises `IndexError`. -/
theorem popLive_none {heap : List PQEntry}
    (hdead : ∀ x ∈ heap, x.element = none) : popLive heap = none :=
  popLiveFuel_none heap.length heap hdead

theorem finderGet_erase (f : List (HState × Int × Nat)) (x z : HState) :
    finderGet (finderErase f x) z = if z = x then none else finderGet f z := by
  induction f with
  | nil => simp [finderErase, finderGet]
  | cons p rest ih =>
    obtain ⟨y, v⟩ := p
    rcases eq_or_ne y x with rfl | hyx
    · rw [finderErase, if_pos rfl, ih]
      rcases eq_or_ne z y with rfl | hzy
      · simp
      · rw [if_neg hzy, if_neg hzy, finderGet, if_neg (Ne.symm hzy)]
    · rw [finderErase, if_neg hyx]
      rcases eq_or_ne y z with rfl | hzy
      · rw [finderGet, if_pos rfl, if_neg hyx, finderGet, if_pos rfl]
      · rw [finderGet, if_neg hzy, ih]
        rcases eq_or_ne z x with rfl | hzx
        · rw [if_pos rfl, if_pos rfl]
        · rw [if_neg hzx, if_neg hzx, finderGet, if_neg hzy]

theorem finderGet_isSome_iff_mem_keys (f : List (HState × Int × Nat)) (x : HState) :
    (finderGet f x).isSome = true ↔ x ∈ f.map (fun p => p.1) := by
  induction f with
  | nil => simp [finderGet]
  | cons p rest ih =>
    obtain ⟨y, v⟩ := p
    rw [finderGet]
    by_cases hyx : y = x
    · subst hyx
      simp
    · rw [if_neg hyx]
      simp only [List.map_cons, List.mem_cons, ih]
      constructor
      · intro h
        exact Or.inr h
      · rintro (rfl | h)
        · exact absurd rfl hyx
        · exact h

theorem not_mem_keys_erase (f : List (HState × Int × Nat)) (x : HState) :
    x ∉ (finderErase f x).map (fun p => p.1) := by
  intro hmem
  have := (finderGet_isSome_iff_mem_keys (finderErase f x) x).mpr hmem
  rw [finderGet_erase, if_pos rfl] at this
  simp at this

theorem keys_erase_sublist (f : List (HState × Int × Nat)) (x : HState) :
    ((finderErase f x).map (fun p => p.1)).Sublist (f.map (fun p => p.1)) := by
  induction f with
  | nil => simp [finderErase]
  | cons p rest ih =>
    obtain ⟨y, v⟩ := p
    rw [finderErase]
    by_cases hyx : y = x
    · rw [if_pos hyx]
      exact ih.trans (List.sublist_cons_self _ _)
    · rw [if_neg hyx]
      simpa using ih.cons₂ y

theorem keys_erase_nodup {f : List (HState × Int × Nat)} (x : HState)
    (h : (f.map (fun p => p.1)).Nodup) :
    ((finderErase f x).map (fun p => p.1)).Nodup :=
  (keys_erase_sublist f x).nodup h

theorem popEntry_ok_inv {q : PriorityQueue} {e : PQEntry} {s : HState}
    {q' : PriorityQueue} (h : q.popEntry = .ok (e, s, q')) :
    popLive q.heap = some (e, s, q'.heap) ∧
    (finderGet q.entry_finder s).isSome = true ∧
    q'.entry_finder = finderErase q.entry_finder s ∧
    q'.counter = q.counter := by
  unfold PriorityQueue.popEntry at h
  cases hp : popLive q.heap with
  | none => rw [hp] at h; simp at h
  | some p =>
    obtain ⟨e0, s0, rest⟩ := p
    rw [hp] at h
    dsimp only at h
    cases hf : finderGet q.entry_finder s0 with
    | none => rw [hf] at h; simp at h
    | some v =>
      rw [hf] at h
      dsimp only at h
      simp only [Except.ok.injEq, Prod.mk.injEq] at h
      obtain ⟨rfl, rfl, rfl⟩ := h
      exact ⟨rfl, by simp [hf], rfl, rfl⟩

theorem pop_ok_inv {q : PriorityQueue} {s : HState} {q' : PriorityQueue}
    (h : q.pop = .ok (s, q')) : ∃ e, q.popEntry = .ok (e, s, q') := by
  unfold PriorityQueue.pop at h
  cases hp : q.popEntry with
  | error err => rw [hp] at h; simp at h
  | ok p =>
    obtain ⟨e, s0, q0⟩ := p
    rw [hp] at h
    dsimp only at h
    simp only [Except.ok.injEq, Prod.mk.injEq] at h
    obtain ⟨rfl, rfl⟩ := h
    exact ⟨e, rfl⟩

theorem popPriorities_chain (n : Nat) :
    ∀ q : PriorityQueue, List.Chain' (· ≤ ·) (popPriorities q n) := by
  induction n with
  | zero => intro q; simp [popPriorities]
  | succ n ih =>
    intro q
    rw [popPriorities]
    cases h1 : q.popEntry with
    | error err => simp
    | ok p =>
      obtain ⟨e, s, q'⟩ := p
      dsimp only
      cases n with
      | zero => simp [popPriorities]
      | succ m =>
        rw [popPriorities]
        cases h2 : q'.popEntry with
        | error err => simp
        | ok p2 =>
          obtain ⟨e2, s2, q''⟩ := p2
          dsimp only
          rw [List.chain'_cons]
          constructor
          · obtain ⟨hpl1, -, -, -⟩ := popEntry_ok_inv h1
            obtain ⟨hpl2, -, -, -⟩ := popEntry_ok_inv h2
            obtain ⟨hel2, hmem2, -, -, -⟩ := popLive_spec hpl2
            obtain ⟨-, -, hsub1, hmin1, -⟩ := popLive_spec hpl1
            have hmem2' : e2 ∈ q.heap := hsub1 e2 hmem2
            have hle : keyLe e e2 = true := hmin1 e2 hmem2' (by simp [hel2])
            exact keyLe_priority_le hle
          · have htail := ih q'
            rw [popPriorities, h2] at htail
            exact htail

/-- C1: the decrease-only update the claim describes never happens: on a
state already contained in the frontier, `FrontierBestFirst.add` raises
`TypeError` (line 110 passes the one-argument bound method `get_priority`
two positional arguments) whatever the relation between the stored and the
newly computed priority; only the not-contained branch inserts, at priority
`f(state)`. -/
theorem frontier_add_on_present_state_raises :
    ∀ (fr : FrontierBestFirst) (s : HState),
      (FrontierBestFirst.contains fr s = true →
        FrontierBestFirst.add fr s = .error .typeError) ∧
      (FrontierBestFirst.contains fr s = false →
        FrontierBestFirst.add fr s =
          .ok { fr with priority_queue :=
            fr.priority_queue.add s (FrontierBestFirst.f s fr.goal_description) }) := by
  intro fr s
  constructor
  · intro h
    simp [FrontierBestFirst.add, h]
  · intro h
    simp [FrontierBestFirst.add, h]

/-- Witness for C1: a frontier holding the state `{id 0, path_cost 1}` at
stored priority 1; adding that state again raises `TypeError` instead of
performing the claimed no-op/decrease. -/
theorem frontier_add_on_present_state_raises_witness :
    FrontierBestFirst.add ⟨none, PriorityQueue.empty.add ⟨0, 1⟩ 1⟩ ⟨0, 1⟩ =
      .error .typeError :=
  (frontier_add_on_present_state_raises
    ⟨none, PriorityQueue.empty.add ⟨0, 1⟩ 1⟩ ⟨0, 1⟩).1 (by decide)

/-- C2 counterexample: for the state with `path_cost = 1`,
`FrontierBestFirst.g` returns 1, not 0, and the priority `f` computed and
stored by `add` is 1, not 0. -/
theorem bestfirst_g_nonzero_counterexample :
    FrontierBestFirst.g ⟨0, 1⟩ none = 1 ∧
    FrontierBestFirst.g ⟨0, 1⟩ none ≠ 0 ∧
    FrontierBestFirst.f ⟨0, 1⟩ none ≠ 0 ∧
    FrontierBestFirst.add ⟨none, PriorityQueue.empty⟩ ⟨0, 1⟩ =
      .ok ⟨none, ⟨[⟨1, 0, some ⟨0, 1⟩⟩], [(⟨0, 1⟩, 1, 0)], 1⟩⟩ := by
  refine ⟨rfl, by decide, by decide, rfl⟩

/-- C2 amended: for `FrontierBestFirst`, `g(state) = state.path_cost`
(uniform-cost behaviour), `h(state) = 0`, and the priority computed by
`add` is `f(state) = state.path_cost`. -/
theorem bestfirst_cost_model_path_cost :
    ∀ (s : HState) (gd : Option GoalDescription),
      FrontierBestFirst.g s gd = s.path_cost ∧
      FrontierBestFirst.h s gd = 0 ∧
      FrontierBestFirst.f s gd = s.path_cost := by
  intro s gd
  refine ⟨rfl, rfl, ?_⟩
  show (0 : Int) + s.path_cost = s.path_cost
  exact zero_add s.path_cost

/-- C3: `FrontierAStar.h` and `FrontierGreedy.h` do not invoke the
heuristic callable stored by the constructor: they evaluate the external
`HospitalZeroHeuristic` / `HospitalAdvancedHeuristics` on the state, so
their result is independent of the constructor argument; concretely, with
the supplied heuristic constantly 1, both return a value different from the
supplied heuristic's. -/
theorem astar_greedy_h_ignore_supplied_heuristic :
    (∀ (heuristic heuristic2 : HState → Int) (s : HState)
        (gd : Option GoalDescription),
      (FrontierAStar.init heuristic).h s gd = HospitalZeroHeuristic s ∧
      (FrontierGreedy.init heuristic).h s gd = HospitalAdvancedHeuristics s ∧
      (FrontierAStar.init heuristic).h s gd = (FrontierAStar.init heuristic2).h s gd ∧
      (FrontierGreedy.init heuristic).h s gd = (FrontierGreedy.init heuristic2).h s gd) ∧
    (FrontierAStar.init (fun _ => 1)).h ⟨0, 0⟩ none ≠ (fun _ : HState => (1 : Int)) ⟨0, 0⟩ ∧
    (FrontierGreedy.init (fun _ => 1)).h ⟨0, 0⟩ none ≠ (fun _ : HState => (1 : Int)) ⟨0, 0⟩ := by
  refine ⟨fun _ _ _ _ => ⟨rfl, rfl, rfl, rfl⟩, by decide, by decide⟩

/-- C4: while two live entries with equal priority sit in the heap, a
successful pop never delivers the earlier-inserted one (the later insertion
has the larger counter, hence the strictly smaller key `(priority,
-count)`); concretely, after adding states X then Y both at priority 1,
`pop` returns Y. -/
theorem queue_lifo_tie_break :
    (∀ (q : PriorityQueue) (e1 e2 e : PQEntry) (x1 x2 s : HState)
        (q' : PriorityQueue),
      e1 ∈ q.heap → e2 ∈ q.heap →
      e1.element = some x1 → e2.element = some x2 →
      e1.priority = e2.priority → e1.count < e2.count →
      q.popEntry = .ok (e, s, q') → e ≠ e1) ∧
    ((PriorityQueue.empty.add ⟨0, 0⟩ 1).add ⟨1, 0⟩ 1).pop =
      .ok (⟨1, 0⟩, ⟨[⟨1, 0, some ⟨0, 0⟩⟩], [(⟨0, 0⟩, 1, 0)], 2⟩) := by
  constructor
  · intro q e1 e2 e x1 x2 s q' hm1 hm2 hl1 hl2 hpr hcnt hpop
    obtain ⟨hpl, -, -, -⟩ := popEntry_ok_inv hpop
    obtain ⟨-, -, -, hmin, -⟩ := popLive_spec hpl
    intro he
    subst he
    have hke : keyLe e e2 = true := hmin e2 hm2 (by simp [hl2])
    simp only [keyLe, decide_eq_true_eq] at hke
    omega
  · rfl

/-- Witness for C4: in the concrete queue holding X = (0,0) at entry
(1, count 0) and Y = (1,0) at entry (1, count 1), the popped entry is not
X's. -/
theorem queue_lifo_tie_break_witness :
    ((⟨1, 1, some ⟨1, 0⟩⟩ : PQEntry) ≠ ⟨1, 0, some ⟨0, 0⟩⟩) :=
  queue_lifo_tie_break.1
    ⟨[⟨1, 1, some ⟨1, 0⟩⟩, ⟨1, 0, some ⟨0, 0⟩⟩],
      [(⟨1, 0⟩, 1, 1), (⟨0, 0⟩, 1, 0)], 2⟩
    ⟨1, 0, some ⟨0, 0⟩⟩ ⟨1, 1, some ⟨1, 0⟩⟩ ⟨1, 1, some ⟨1, 0⟩⟩
    ⟨0, 0⟩ ⟨1, 0⟩ ⟨1, 0⟩
    ⟨[⟨1, 0, some ⟨0, 0⟩⟩], [(⟨0, 0⟩, 1, 0)], 2⟩
    (by decide) (by decide) rfl rfl rfl (by decide) rfl

/-- C6: the two contract violations raise: `pop` with no live entry left
(every heap cell a tombstone, or the heap empty) raises `IndexError` via
`heapq.heappop`, and `change_priority` on an untracked payload raises
`KeyError` via `entry_finder.pop`. -/
theorem queue_contract_violations_raise :
    (∀ q : PriorityQueue, (∀ e ∈ q.heap, e.element = none) →
      q.pop = .error PyErr.indexError) ∧
    (∀ (q : PriorityQueue) (x : HState) (p : Int),
      q.get_priority x = none →
      q.change_priority x p = .error PyErr.keyError) := by
  constructor
  · intro q hdead
    unfold PriorityQueue.pop PriorityQueue.popEntry
    rw [popLive_none hdead]
  · intro q x p hnone
    have hf : finderGet q.entry_finder x = none := by
      unfold PriorityQueue.get_priority at hnone
      exact Option.map_eq_none'.mp hnone
    unfold PriorityQueue.change_priority
    rw [hf]

/-- Witness for C6: a queue whose single heap entry is a tombstone, and an
empty queue asked to change the priority of an absent payload. -/
theorem queue_contract_violations_raise_witness :
    (⟨[⟨5, 0, none⟩], [], 1⟩ : PriorityQueue).pop = .error PyErr.indexError ∧
    PriorityQueue.empty.change_priority ⟨0, 0⟩ 3 = .error PyErr.keyError :=
  ⟨queue_contract_violations_raise.1 ⟨[⟨5, 0, none⟩], [], 1⟩ (by decide),
   queue_contract_violations_raise.2 PriorityQueue.empty ⟨0, 0⟩ 3 (by decide)⟩

/-- C9: every `prepare`/`add`/`pop`/`contains`/`size` sequence on a
`FrontierAStar` or `FrontierGreedy` instance yields the same outputs and
the same final `goal_description` and `priority_queue` whatever heuristic
the constructor received: the inherited `FrontierBestFirst` methods never
read the stored heuristic. -/
theorem frontier_runs_ignore_heuristic_argument :
    ∀ (h1 h2 : HState → Int) (ops : List FOp),
      ((FrontierAStar.init h1).run ops).1 = ((FrontierAStar.init h2).run ops).1 ∧
      ((FrontierAStar.init h1).run ops).2.goal_description =
        ((FrontierAStar.init h2).run ops).2.goal_description ∧
      ((FrontierAStar.init h1).run ops).2.priority_queue =
        ((FrontierAStar.init h2).run ops).2.priority_queue ∧
      ((FrontierGreedy.init h1).run ops).1 = ((FrontierGreedy.init h2).run ops).1 ∧
      ((FrontierGreedy.init h1).run ops).2.goal_description =
        ((FrontierGreedy.init h2).run ops).2.goal_description ∧
      ((FrontierGreedy.init h1).run ops).2.priority_queue =
        ((FrontierGreedy.init h2).run ops).2.priority_queue :=
  fun _ _ _ => ⟨rfl, rfl, rfl, rfl, rfl, rfl⟩

/-- C10: `PriorityQueue.add` performs no membership check: it always
returns normally, pushing a fresh live entry on the heap and overwriting
the index mapping, while every pre-existing heap entry — in particular a
live entry for the same payload — survives untouched; in the concrete
duplicate-add trace (add d at 1, add d at 2, pop, add d at 5, pop) the
payload d is returned by two distinct pop calls. -/
theorem queue_add_unchecked_duplicate :
    (∀ (q : PriorityQueue) (x : HState) (p : Int),
      (q.add x p).heap = ⟨p, q.counter, some x⟩ :: q.heap ∧
      finderGet (q.add x p).entry_finder x = some (p, q.counter)) ∧
    (∀ (q : PriorityQueue) (x : HState) (p : Int) (e : PQEntry),
      e ∈ q.heap → e ∈ (q.add x p).heap) ∧
    ((PriorityQueue.empty.add ⟨7, 0⟩ 1).add ⟨7, 0⟩ 2).heap =
      [⟨2, 1, some ⟨7, 0⟩⟩, ⟨1, 0, some ⟨7, 0⟩⟩] ∧
    ((PriorityQueue.empty.add ⟨7, 0⟩ 1).add ⟨7, 0⟩ 2).pop =
      .ok (⟨7, 0⟩, ⟨[⟨2, 1, some ⟨7, 0⟩⟩], [], 2⟩) ∧
    ((⟨[⟨2, 1, some ⟨7, 0⟩⟩], [], 2⟩ : PriorityQueue).add ⟨7, 0⟩ 5).pop =
      .ok (⟨7, 0⟩, ⟨[⟨5, 2, some ⟨7, 0⟩⟩], [], 3⟩) := by
  refine ⟨?_, ?_, rfl, rfl, rfl⟩
  · intro q x p
    constructor
    · rfl
    · show (if x = x then some (p, q.counter) else _) = some (p, q.counter)
      rw [if_pos rfl]
  · intro q x p e he
    exact List.mem_cons_of_mem _ he

/-- Witness for C10: the heap-preservation part applied to the concrete
queue that already tracks d = (7,0). -/
theorem queue_add_unchecked_duplicate_witness :
    (⟨1, 0, some ⟨7, 0⟩⟩ : PQEntry) ∈
      ((⟨[⟨1, 0, some ⟨7, 0⟩⟩], [(⟨7, 0⟩, 1, 0)], 1⟩ : PriorityQueue).add
        ⟨7, 0⟩ 2).heap :=
  queue_add_unchecked_duplicate.2.1
    ⟨[⟨1, 0, some ⟨7, 0⟩⟩], [(⟨7, 0⟩, 1, 0)], 1⟩ ⟨7, 0⟩ 2
    ⟨1, 0, some ⟨7, 0⟩⟩ (by decide)

/-- C5: on any queue reached by a sequence of `add`/`change_priority`
calls, a successful pop delivers a live entry whose key `(priority,
-count)` is least among the live entries, discarding only skipped
tombstones (every other live entry survives into the resulting heap), and
the priorities of the entries delivered by repeated popping are
non-decreasing. -/
theorem queue_pop_min_live_and_monotone :
    ∀ (ops : List QOp) (q : PriorityQueue),
      (∀ op ∈ ops, QOp.isAddOrChange op = true) →
      runQOps PriorityQueue.empty ops = .ok q →
      (∀ (e : PQEntry) (s : HState) (q' : PriorityQueue),
        q.popEntry = .ok (e, s, q') →
        e ∈ q.heap ∧ e.element = some s ∧
        (∀ x ∈ q.heap, x.element ≠ none → keyLe e x = true) ∧
        (∀ x ∈ q.heap, x.element ≠ none → x = e ∨ x ∈ q'.heap) ∧
        (∀ x ∈ q'.heap, x ∈ q.heap)) ∧
      (∀ n : Nat, List.Chain' (· ≤ ·) (popPriorities q n)) := by
  intro ops q _ _
  constructor
  · intro e s q' hpop
    obtain ⟨hpl, -, -, -⟩ := popEntry_ok_inv hpop
    obtain ⟨h1, h2, h3, h4, h5⟩ := popLive_spec hpl
    exact ⟨h2, h1, h4, h5, h3⟩
  · intro n
    exact popPriorities_chain n q

/-- Witness for C5: the queue built by adding (0,0) at priority 1 and then
(1,0) at priority 0; three pop attempts deliver priorities [0, 1], a
non-decreasing chain. -/
theorem queue_pop_min_live_and_monotone_witness :
    List.Chain' (· ≤ ·)
      (popPriorities
        ⟨[⟨0, 1, some ⟨1, 0⟩⟩, ⟨1, 0, some ⟨0, 0⟩⟩],
          [(⟨1, 0⟩, 0, 1), (⟨0, 0⟩, 1, 0)], 2⟩ 3) :=
  (queue_pop_min_live_and_monotone
    [QOp.add ⟨0, 0⟩ 1, QOp.add ⟨1, 0⟩ 0]
    ⟨[⟨0, 1, some ⟨1, 0⟩⟩, ⟨1, 0, some ⟨0, 0⟩⟩],
      [(⟨1, 0⟩, 0, 1), (⟨0, 0⟩, 1, 0)], 2⟩
    (by decide) rfl).2 3

theorem step_preserves_untracked {q q' : PriorityQueue} {x : HState} {op : QOp}
    (hnone : finderGet q.entry_finder x = none)
    (hnt : QOp.touches x op = false)
    (h : QOp.step q op = .ok q') : finderGet q'.entry_finder x = none := by
  cases op with
  | add y p =>
    simp only [QOp.touches, decide_eq_false_iff_not] at hnt
    simp only [QOp.step, Except.ok.injEq] at h
    subst h
    show finderGet ((y, p, q.counter) :: finderErase q.entry_finder y) x = none
    rw [finderGet, if_neg hnt, finderGet_erase]
    rcases eq_or_ne x y with rfl | hxy
    · rw [if_pos rfl]
    · rw [if_neg hxy]
      exact hnone
  | change_priority y p =>
    simp only [QOp.touches, decide_eq_false_iff_not] at hnt
    simp only [QOp.step] at h
    unfold PriorityQueue.change_priority at h
    cases hf : finderGet q.entry_finder y with
    | none => rw [hf] at h; simp at h
    | some v =>
      obtain ⟨pc, c⟩ := v
      rw [hf] at h
      simp only [Except.ok.injEq] at h
      subst h
      show finderGet ((y, p, q.counter) :: finderErase (finderErase q.entry_finder y) y) x
        = none
      rw [finderGet, if_neg hnt, finderGet_erase]
      rcases eq_or_ne x y with rfl | hxy
      · rw [if_pos rfl]
      · rw [if_neg hxy, finderGet_erase, if_neg hxy]
        exact hnone
  | pop =>
    simp only [QOp.step] at h
    cases hp : q.pop with
    | error err => rw [hp] at h; simp at h
    | ok p =>
      obtain ⟨s, q0⟩ := p
      rw [hp] at h
      simp only [Except.ok.injEq] at h
      subst h
      obtain ⟨e, hpe⟩ := pop_ok_inv hp
      obtain ⟨-, -, hfin, -⟩ := popEntry_ok_inv hpe
      rw [hfin, finderGet_erase]
      rcases eq_or_ne x s with rfl | hxs
      · rw [if_pos rfl]
      · rw [if_neg hxs]
        exact hnone
  | clear =>
    simp only [QOp.step, Except.ok.injEq] at h
    subst h
    rfl

theorem run_preserves_untracked {x : HState} :
    ∀ (ops : List QOp) (q q' : PriorityQueue),
      finderGet q.entry_finder x = none →
      (∀ op ∈ ops, QOp.touches x op = false) →
      runQOps q ops = .ok q' → finderGet q'.entry_finder x = none := by
  intro ops
  induction ops with
  | nil =>
    intro q q' hnone _ h
    simp only [runQOps, Except.ok.injEq] at h
    subst h
    exact hnone
  | cons op ops ih =>
    intro q q' hnone hnt h
    rw [runQOps] at h
    cases hs : QOp.step q op with
    | error err => rw [hs] at h; simp at h
    | ok q1 =>
      rw [hs] at h
      dsimp only at h
      have hnone1 := step_preserves_untracked hnone
        (hnt op (List.mem_cons_self _ _)) hs
      exact ih q1 q' hnone1 (fun o ho => hnt o (List.mem_cons_of_mem _ ho)) h

/-- C8: `clear` (and `prepare`, which delegates to it) resets everything:
the size drops to 0, no payload whatsoever is reported present, the
counter restarts at zero so the first entry added afterwards carries count
0, and a payload that is never re-added (nor re-targeted by a
`change_priority`) after the reset is never again reported present by any
subsequent successful call sequence. -/
theorem queue_clear_resets_state :
    ∀ (q : PriorityQueue) (fr : FrontierBestFirst) (gd : GoalDescription),
      q.clear.size = 0 ∧
      (∀ x : HState, q.clear.get_priority x = none) ∧
      q.clear.counter = 0 ∧
      (∀ (x : HState) (p : Int), (q.clear.add x p).heap = [⟨p, 0, some x⟩]) ∧
      FrontierBestFirst.prepare fr gd = ⟨some gd, fr.priority_queue.clear⟩ ∧
      (∀ (ops : List QOp) (q' : PriorityQueue) (x : HState),
        (∀ op ∈ ops, QOp.touches x op = false) →
        runQOps q.clear ops = .ok q' →
        q'.get_priority x = none) := by
  intro q fr gd
  refine ⟨rfl, fun x => rfl, rfl, fun x p => rfl, rfl, ?_⟩
  intro ops q' x hnt hrun
  have : finderGet q'.entry_finder x = none :=
    run_preserves_untracked ops q.clear q' rfl hnt hrun
  unfold PriorityQueue.get_priority
  rw [this]
  rfl

/-- Witness for C8: a queue holding (0,0) is cleared; after adding the
different payload (1,0) and popping it, (0,0) is still reported absent. -/
theorem queue_clear_resets_state_witness :
    (⟨[], [], 1⟩ : PriorityQueue).get_priority ⟨0, 0⟩ = none :=
  (queue_clear_resets_state
    (PriorityQueue.empty.add ⟨0, 0⟩ 1) FrontierBestFirst.init ⟨0⟩).2.2.2.2.2
    [QOp.add ⟨1, 0⟩ 1, QOp.pop] ⟨[], [], 1⟩ ⟨0, 0⟩ (by decide) rfl

theorem length_eq_of_nodup_mem_iff {l1 l2 : List HState} (h1 : l1.Nodup)
    (h2 : l2.Nodup) (hm : ∀ x, x ∈ l1 ↔ x ∈ l2) : l1.length = l2.length := by
  have hts : l1.toFinset = l2.toFinset := by
    ext a
    simp only [List.mem_toFinset]
    exact hm a
  calc l1.length = l1.toFinset.card := (List.toFinset_card_of_nodup h1).symm
    _ = l2.toFinset.card := by rw [hts]
    _ = l2.length := List.toFinset_card_of_nodup h2

theorem stepTracked_inv {q q' : PriorityQueue} {t t' : List HState} {op : QOp}
    (hinv : TrackedInv q t) (h : stepTracked q t op = .ok (q', t')) :
    TrackedInv q' t' := by
  obtain ⟨htn, hkn, hmem⟩ := hinv
  cases op with
  | add x p =>
    simp only [stepTracked, Except.ok.injEq, Prod.mk.injEq] at h
    obtain ⟨rfl, rfl⟩ := h
    refine ⟨?_, ?_, ?_⟩
    · by_cases hxt : x ∈ t
      · rw [if_pos hxt]; exact htn
      · rw [if_neg hxt]; exact List.nodup_cons.mpr ⟨hxt, htn⟩
    · show (((x, p, q.counter) :: finderErase q.entry_finder x).map
        (fun p => p.1)).Nodup
      rw [List.map_cons]
      exact List.nodup_cons.mpr ⟨not_mem_keys_erase _ _, keys_erase_nodup _ hkn⟩
    · intro z
      show (finderGet ((x, p, q.counter) :: finderErase q.entry_finder x) z).isSome
          = true ↔ _
      rw [finderGet]
      rcases eq_or_ne x z with rfl | hxz
      · rw [if_pos rfl]
        by_cases hxt : x ∈ t
        · simp [hxt]
        · simp [hxt]
      · rw [if_neg hxz, finderGet_erase, if_neg (Ne.symm hxz)]
        by_cases hxt : x ∈ t
        · rw [if_pos hxt]
          exact hmem z
        · rw [if_neg hxt]
          rw [hmem z, List.mem_cons]
          constructor
          · exact Or.inr
          · rintro (rfl | hz)
            · exact absurd rfl (Ne.symm hxz)
            · exact hz
  | change_priority x p =>
    simp only [stepTracked] at h
    unfold PriorityQueue.change_priority at h
    cases hf : finderGet q.entry_finder x with
    | none => rw [hf] at h; simp at h
    | some v =>
      obtain ⟨pc, c⟩ := v
      rw [hf] at h
      dsimp only at h
      simp only [Except.ok.injEq, Prod.mk.injEq] at h
      obtain ⟨rfl, rfl⟩ := h
      have hxt : x ∈ t := (hmem x).mp (by simp [hf])
      refine ⟨htn, ?_, ?_⟩
      · show (((x, p, q.counter) ::
          finderErase (finderErase q.entry_finder x) x).map (fun p => p.1)).Nodup
        rw [List.map_cons]
        exact List.nodup_cons.mpr
          ⟨not_mem_keys_erase _ _, keys_erase_nodup _ (keys_erase_nodup _ hkn)⟩
      · intro z
        show (finderGet ((x, p, q.counter) ::
          finderErase (finderErase q.entry_finder x) x) z).isSome = true ↔ z ∈ t
        rw [finderGet]
        rcases eq_or_ne x z with rfl | hxz
        · rw [if_pos rfl]
          simpa using hxt
        · rw [if_neg hxz, finderGet_erase, if_neg (Ne.symm hxz),
            finderGet_erase, if_neg (Ne.symm hxz)]
          exact hmem z
  | pop =>
    simp only [stepTracked] at h
    cases hp : q.pop with
    | error err => rw [hp] at h; simp at h
    | ok pr =>
      obtain ⟨s, q0⟩ := pr
      rw [hp] at h
      dsimp only at h
      simp only [Except.ok.injEq, Prod.mk.injEq] at h
      obtain ⟨rfl, rfl⟩ := h
      obtain ⟨e, hpe⟩ := pop_ok_inv hp
      obtain ⟨-, -, hfin, -⟩ := popEntry_ok_inv hpe
      refine ⟨htn.filter _, ?_, ?_⟩
      · rw [hfin]
        exact keys_erase_nodup _ hkn
      · intro z
        rw [hfin, finderGet_erase]
        rcases eq_or_ne z s with rfl | hzs
        · rw [if_pos rfl]
          simp [List.mem_filter]
        · rw [if_neg hzs]
          rw [hmem z]
          simp [List.mem_filter, hzs]
  | clear =>
    simp only [stepTracked, Except.ok.injEq, Prod.mk.injEq] at h
    obtain ⟨rfl, rfl⟩ := h
    exact ⟨List.nodup_nil, List.nodup_nil, fun z => by simp [PriorityQueue.clear, finderGet]⟩

theorem runQOpsTracked_inv :
    ∀ (ops : List QOp) (q q' : PriorityQueue) (t t' : List HState),
      TrackedInv q t → runQOpsTracked q t ops = .ok (q', t') →
      TrackedInv q' t' := by
  intro ops
  induction ops with
  | nil =>
    intro q q' t t' hinv h
    simp only [runQOpsTracked, Except.ok.injEq, Prod.mk.injEq] at h
    obtain ⟨rfl, rfl⟩ := h
    exact hinv
  | cons op ops ih =>
    intro q q' t t' hinv h
    rw [runQOpsTracked] at h
    cases hs : stepTracked q t op with
    | error err => rw [hs] at h; simp at h
    | ok p =>
      obtain ⟨q1, t1⟩ := p
      rw [hs] at h
      dsimp only at h
      exact ih q1 q' t1 t' (stepTracked_inv hinv hs) h

/-- C7: after any successful call sequence from a fresh queue, `size()`
equals the number of distinct payloads added and not yet popped (the
spec's ledger), and a payload is reported present exactly when the ledger
holds it; the raw heap storage length is a different quantity, as the
concrete add-then-reprioritise trace shows (size 1, two stored cells, one
a tombstone). -/
theorem queue_size_counts_tracked_payloads :
    (∀ (ops : List QOp) (q : PriorityQueue) (t : List HState),
      runQOpsTracked PriorityQueue.empty [] ops = .ok (q, t) →
      q.size = t.length ∧
      ∀ x : HState, (q.get_priority x).isSome = true ↔ x ∈ t) ∧
    (runQOpsTracked PriorityQueue.empty []
        [QOp.add ⟨0, 0⟩ 5, QOp.change_priority ⟨0, 0⟩ 3] =
      .ok (⟨[⟨3, 1, some ⟨0, 0⟩⟩, ⟨5, 0, none⟩], [(⟨0, 0⟩, 3, 1)], 2⟩, [⟨0, 0⟩]) ∧
    (⟨[⟨3, 1, some ⟨0, 0⟩⟩, ⟨5, 0, none⟩], [(⟨0, 0⟩, 3, 1)], 2⟩ :
      PriorityQueue).size = 1 ∧
    (⟨[⟨3, 1, some ⟨0, 0⟩⟩, ⟨5, 0, none⟩], [(⟨0, 0⟩, 3, 1)], 2⟩ :
      PriorityQueue).heap.length = 2) := by
  constructor
  · intro ops q t hrun
    have hinv0 : TrackedInv PriorityQueue.empty [] :=
      ⟨List.nodup_nil, List.nodup_nil, fun z => by simp [PriorityQueue.empty, finderGet]⟩
    obtain ⟨htn, hkn, hmem⟩ := runQOpsTracked_inv ops _ q [] t hinv0 hrun
    constructor
    · have hkeys : ∀ x : HState, x ∈ q.entry_finder.map (fun p => p.1) ↔ x ∈ t :=
        fun x => ⟨fun hx => (hmem x).mp ((finderGet_isSome_iff_mem_keys _ x).mpr hx),
          fun hx => (finderGet_isSome_iff_mem_keys _ x).mp ((hmem x).mpr hx)⟩
      have hlen := length_eq_of_nodup_mem_iff hkn htn hkeys
      unfold PriorityQueue.size
      rw [← hlen, List.length_map]
    · intro x
      unfold PriorityQueue.get_priority
      rw [← hmem x]
      cases finderGet q.entry_finder x <;> simp
  · exact ⟨rfl, rfl, rfl⟩

/-- Witness for C7: the add-then-reprioritise trace; the final size equals
the ledger's length. -/
theorem queue_size_counts_tracked_payloads_witness :
    (⟨[⟨3, 1, some ⟨0, 0⟩⟩, ⟨5, 0, none⟩], [(⟨0, 0⟩, 3, 1)], 2⟩ :
      PriorityQueue).size = ([⟨0, 0⟩] : List HState).length :=
  (queue_size_counts_tracked_payloads.1
    [QOp.add ⟨0, 0⟩ 5, QOp.change_priority ⟨0, 0⟩ 3]
    ⟨[⟨3, 1, some ⟨0, 0⟩⟩, ⟨5, 0, none⟩], [(⟨0, 0⟩, 3, 1)], 2⟩
    [⟨0, 0⟩] rfl).1

end BestFirst
